import Mathlib

/-!
Verification of the `system_solver` equation-system core.

This file gives a shallow embedding, over the real numbers, of the core of the
`system_solver` repository: the parameter-scaling link functions
(`equation_system/param_scaling.rs`), the binarization and plan construction of
the structural analyzer (`equation_system/mod.rs`), the sub-problem projection
machinery (`equation_system/sub_problem/sub_problem.rs`), the simulated
annealing proposal (`equation_system/sub_problem/argmin_impls.rs`), the
residual-bundle filter (`equation_system/residuals/residuals.rs`) and the
orchestration loop `solve_system` (`equation_system/mod.rs`).

Machine floats (`f64`) are modelled as real numbers; the possibility of
non-finite Jacobian entries is modelled with `Option ℝ` (`none` standing for a
non-finite probe value).  External facilities (the argmin optimizers and the
`nalgebra_block_triangularization` crate) are modelled as oracle parameters:
every theorem about code that calls them holds for an arbitrary oracle.
-/

namespace SystemSolver

/-- Rust `f64::signum` restricted to real (hence non-NaN) inputs: `1.0` for
positive numbers and `+0.0`, `-1.0` for negative numbers. -/
noncomputable def rustSignum (x : ℝ) : ℝ := if x < 0 then -1 else 1

/-- Rust `f64::clamp(lo, hi)`: `min (max x lo) hi` (well-behaved when
`lo ≤ hi`, which the call sites guarantee). -/
noncomputable def rustClamp (x lo hi : ℝ) : ℝ := min (max x lo) hi

/-- `scaled_log_link` from `param_scaling.rs`: logarithmic map from the
constrained model space to the unconstrained optimization space,
`ln ((p - lb) / (prior - lb))`. -/
noncomputable def scaled_log_link (p prior lb : ℝ) : ℝ :=
  Real.log ((p - lb) / (prior - lb))

/-- `scaled_log_link_inv` from `param_scaling.rs`:
`exp x * (prior - lb) + lb`. -/
noncomputable def scaled_log_link_inv (x prior lb : ℝ) : ℝ :=
  Real.exp x * (prior - lb) + lb

/-- The lower bound used by `default_link_fns_builder`: 1% of the absolute
value of the prior (`priors_vec[i].abs() * 0.01`). -/
noncomputable def priorLb (prior : ℝ) : ℝ := |prior| * 0.01

/-- The `model_to_opt` closure built by `default_link_fns_builder`
(coordinatewise; parameter vectors are modelled as functions `ℕ → ℝ`):
`scaled_log_link (p_model[i].abs()) (priors_vec[i].abs()) lb`. -/
noncomputable def modelToOpt (priors p : ℕ → ℝ) : ℕ → ℝ := fun i =>
  scaled_log_link |p i| |priors i| (priorLb (priors i))

/-- The `opt_to_model` closure built by `default_link_fns_builder`:
`scaled_log_link_inv (p_opt[i]) (priors_vec[i].abs()) lb * priors_vec[i].signum()`. -/
noncomputable def optToModel (priors p : ℕ → ℝ) : ℕ → ℝ := fun i =>
  scaled_log_link_inv (p i) |priors i| (priorLb (priors i)) * rustSignum (priors i)

/-- `default_link_fns_builder` from `param_scaling.rs`: returns the pair
`(opt_to_model, model_to_opt)`.  The construction is total: it only captures
the priors in two closures and never fails. -/
noncomputable def default_link_fns_builder (priors : ℕ → ℝ) :
    ((ℕ → ℝ) → (ℕ → ℝ)) × ((ℕ → ℝ) → (ℕ → ℝ)) :=
  (optToModel priors, modelToOpt priors)

/-- The error enumeration `EqSysError` from `error.rs`, verbatim: it has
exactly these three variants (the argmin error payload is abstracted to a
string). -/
inductive EqSysError where
  | numEquationsNumUnknownsMismatch (n_eqs n_unks : ℕ)
  | argminError (msg : String)
  | noBestPsoIndividual
deriving DecidableEq

/-- The value set of the binarized probe matrix (`f32` values `NaN`, `1.0`,
`0.0` in `to_binary_matrix`), modelled as a three-element type. -/
inductive Bin where
  | nan
  | one
  | zero
deriving DecidableEq

/-- One entry of `to_binary_matrix` (`equation_system/mod.rs`): a non-finite
probe entry (modelled as `none`) maps to `NaN`; a finite non-zero entry maps
to `1.0`; a zero entry maps to `0.0`. -/
noncomputable def to_binary_entry (x : Option ℝ) : Bin :=
  match x with
  | none => Bin.nan
  | some v => if v = 0 then Bin.zero else Bin.one

/-- `to_binary_matrix` from `equation_system/mod.rs`: the probe Jacobian is a
rectangular list of rows; every cell is binarized in place. -/
noncomputable def to_binary_matrix (m : List (List (Option ℝ))) : List (List Bin) :=
  m.map (List.map to_binary_entry)

/-- Number of rows of a row-list matrix. -/
def matNrows {α : Type} (m : List (List α)) : ℕ := m.length

/-- Number of columns of a (rectangular) row-list matrix. -/
def matNcols {α : Type} (m : List (List α)) : ℕ := (m.headD []).length

/-- A block of the solution plan (`solution_plan.rs`): index sets refer to the
original, unpermuted system. -/
structure SolutionBlock where
  block_idx : ℕ
  equation_idxs : List ℕ
  unknown_idxs : List ℕ
deriving DecidableEq

/-- `SolutionBlock::new_fullprob` from `solution_plan.rs`: the block covering
all equations and unknowns `0..size`. -/
def SolutionBlock.new_fullprob (size : ℕ) : SolutionBlock :=
  ⟨0, List.range size, List.range size⟩

/-- The solution plan (`solution_plan.rs`): the ordered list of blocks. -/
structure SolutionPlan where
  blocks : List SolutionBlock
deriving DecidableEq

/-- Interface of the result type `LowerBtfStructure` of the external crate
`nalgebra_block_triangularization`, reconstructed from its uses in
`equation_system/mod.rs` (fields `matching_size`, `block_indices()`,
`block_sizes`, `row_order`, `col_order`). -/
structure LowerBtfStructure where
  matching_size : ℕ
  block_indices : List (List ℕ × List ℕ)
  row_order : List ℕ
  col_order : List ℕ

/-- `with_triangularization` from `equation_system/mod.rs`: given the Jacobian
of the residuals at the initial guess, fail with
`NumEquationsNumUnknownsMismatch` when the Jacobian is not square; otherwise
binarize it, hand it to the external block-triangularization crate (the oracle
argument `btf`), and assemble the solution plan from the returned block index
pairs.  There is no other failure path: the function never inspects the
matching size. -/
noncomputable def with_triangularization
    (btf : List (List Bin) → LowerBtfStructure)
    (grad_all : List (List (Option ℝ))) : Except EqSysError SolutionPlan :=
  if matNrows grad_all ≠ matNcols grad_all then
    .error (.numEquationsNumUnknownsMismatch (matNrows grad_all) (matNcols grad_all))
  else
    let binary_matrix := to_binary_matrix grad_all
    let str := btf binary_matrix
    let soln_blocks := str.block_indices.enum.map
      (fun p => SolutionBlock.mk p.1 p.2.1 p.2.2)
    .ok ⟨soln_blocks⟩

/-- All ways to assign to each of `nrows` rows either no column or one of the
columns `0..ncols` (helper for the spec-modelled maximum matching). -/
def matchingAssignments (ncols : ℕ) : ℕ → List (List (Option ℕ))
  | 0 => [[]]
  | n + 1 =>
    (((none : Option ℕ) :: (List.range ncols).map some).map
      (fun c => (matchingAssignments ncols n).map (fun a => c :: a))).flatten

/-- Each assigned column must sit on a `1` entry of its row (helper for the
spec-modelled maximum matching). -/
def matchingRowsOk : List (List Bin) → List (Option ℕ) → Bool
  | [], _ => true
  | _ :: _, [] => true
  | row :: rest, c :: assigned =>
    (match c with
     | none => true
     | some c0 => decide (row.getD c0 Bin.zero = Bin.one)) && matchingRowsOk rest assigned

/-- An assignment is a matching when its chosen columns are distinct and every
chosen column sits on a `1` entry of its row. -/
def matchingOk (bm : List (List Bin)) (a : List (Option ℕ)) : Bool :=
  decide (a.filterMap id).Nodup && matchingRowsOk bm a

/-- Modelled from the spec: the size of a maximum bipartite matching between
rows and columns of the binarized matrix (edges at `1` entries).  The matching
computation lives in the external `nalgebra_block_triangularization` crate,
which is not under `src/`; this definition follows the spec's description
of the structural analyzer (find a maximum matching between rows and
columns). -/
def maxMatchingSize (bm : List (List Bin)) : ℕ :=
  ((matchingAssignments (matNcols bm) (matNrows bm)).filter (matchingOk bm)).foldl
    (fun acc a => max acc (a.filterMap id).length) 0

/-- Modelled from the spec: a stand-in for the external crate's
`lower_block_triangular_structure` (crate `nalgebra_block_triangularization`,
not under `src/`).  It reports the spec's maximum-matching size and a single
block covering the whole system.  The theorems about `with_triangularization`
below are stated for an arbitrary structure function; this stand-in is used
only to instantiate them at concrete inputs. -/
def btfStub (bm : List (List Bin)) : LowerBtfStructure :=
  { matching_size := maxMatchingSize bm
  , block_indices := [(List.range (matNrows bm), List.range (matNcols bm))]
  , row_order := List.range (matNrows bm)
  , col_order := List.range (matNcols bm) }

/-- The residual-transform generators from `residuals/transformation_hof.rs`
(`ResidTransIdentity`, `ResidTransUnscaledL2`, `ResidTransScaledL2`), as the
tags the sub-problem constructors pass around. -/
inductive ResidTransTag where
  | identity (n : ℕ)
  | unscaledL2 (n : ℕ)
  | scaledL2 (scales : List ℝ)

/-- The residual-aggregation generators from `residuals/aggregation_hof.rs`
(`ResidAggSum` and `ResidNoOpGaussNewton` with its stored output count). -/
inductive ResidAggTag where
  | sum
  | noOpGaussNewton (n : ℕ)

/-- `ResidNoOpGaussNewton::new_subprob`: stores the number of equations of the
block. -/
def ResidAggTag.new_subprob (block : SolutionBlock) : ResidAggTag :=
  .noOpGaussNewton block.equation_idxs.length

/-- `SimulatedAnnealingConfig` from
`sub_problem/solve_subproblem/simulated_annealing.rs`. -/
structure SimulatedAnnealingConfig where
  init_temp : ℝ
  small_step_init : ℝ
  small_step_min : ℝ
  big_step_init : ℝ
  big_step_min : ℝ
  p_big_init : ℝ
  p_big_min : ℝ
  max_abs_step : ℝ
  grad_drift_max : Option ℝ

/-- `SimulatedAnnealingConfig::default`: `T₀ = 100`, small step `0.25 → 0.01`,
big step `ln 10 → 0.10`, big-move probability `0.30 → 0.02`, clamp `ln 100`. -/
noncomputable def SimulatedAnnealingConfig.default : SimulatedAnnealingConfig :=
  { init_temp := 100
  , small_step_init := 0.25
  , small_step_min := 0.01
  , big_step_init := Real.log 10
  , big_step_min := 0.10
  , p_big_init := 0.30
  , p_big_min := 0.02
  , max_abs_step := Real.log 100
  , grad_drift_max := some 1 }

/-- `SubProblem` from `sub_problem/sub_problem.rs`: the view of one plan block.
The stored `param_scaler` is modelled by the `use_scaling` flag together with
the stored `initial_unknowns`, because `SubProblem::new` builds the scaler as
`ParamScaler::new_link_fns_from_priors(initial_unknowns)` — the priors are the
initial-unknowns vector handed to the constructor.  The RNG (seeded 0) is
modelled by explicit draw values at the annealing call sites. -/
structure SubProblem where
  block : SolutionBlock
  transform : ResidTransTag
  agg : ResidAggTag
  initial_unknowns : ℕ → ℝ
  use_scaling : Bool
  sa_cfg : Option SimulatedAnnealingConfig

/-- `SubProblem::new`: records the block, the transform and aggregator tags,
the initial unknowns (which double as scaler priors when `use_scaling`) and
starts with no annealing config. -/
def SubProblem.new (block : SolutionBlock) (initial_unknowns : ℕ → ℝ)
    (transform : ResidTransTag) (agg : ResidAggTag) (use_scaling : Bool) :
    SubProblem :=
  ⟨block, transform, agg, initial_unknowns, use_scaling, none⟩

/-- `SubProblem::with_simulated_annealing_config`. -/
def SubProblem.with_sa_config (sp : SubProblem)
    (cfg : SimulatedAnnealingConfig) : SubProblem :=
  { sp with sa_cfg := some cfg }

/-- `SubProblem::modspace_to_optspace`: apply the scaler's `model_to_opt` when
scaling is attached, identity otherwise. -/
noncomputable def SubProblem.modspace_to_optspace (sp : SubProblem) (p : ℕ → ℝ) : ℕ → ℝ :=
  if sp.use_scaling then modelToOpt sp.initial_unknowns p else p

/-- `SubProblem::optspace_to_modspace`: apply the scaler's `opt_to_model` when
scaling is attached, identity otherwise. -/
noncomputable def SubProblem.optspace_to_modspace (sp : SubProblem) (p : ℕ → ℝ) : ℕ → ℝ :=
  if sp.use_scaling then optToModel sp.initial_unknowns p else p

/-- `SubProblem::fullprob_initial_params_optspace`: the full initial-unknowns
vector mapped to opt space. -/
noncomputable def SubProblem.fullprob_initial_params_optspace (sp : SubProblem) : ℕ → ℝ :=
  sp.modspace_to_optspace sp.initial_unknowns

/-- `SubProblem::subprob_initial_params_optspace`: the block's coordinates of
the opt-space initial vector, in `unknown_idxs` order. -/
noncomputable def SubProblem.subprob_initial_params_optspace (sp : SubProblem) : List ℝ :=
  sp.block.unknown_idxs.map (fun idx => sp.fullprob_initial_params_optspace idx)

/-- `SubProblem::optspace_fullprob_input_from_subprob_input`: start from the
frozen opt-space initial vector and overwrite the block coordinates with the
optimizer's sub-problem vector (`full_params[idx] = opt_space_inputs[i]` for
each enumerated `(i, idx)` of `unknown_idxs`). -/
noncomputable def SubProblem.expand (sp : SubProblem) (opt_space_inputs : List ℝ) : ℕ → ℝ :=
  sp.block.unknown_idxs.enum.foldl
    (fun acc p => Function.update acc p.2 (opt_space_inputs.getD p.1 0))
    sp.fullprob_initial_params_optspace

/-- `SubProblem::params_with_subprob_optimizer_result`: expand the optimizer's
sub-problem vector to the full opt-space vector, then map back to model space
(the final `from_arr` is the identity on the flat representation). -/
noncomputable def SubProblem.params_with_subprob_optimizer_result
    (sp : SubProblem) (p_opt : List ℝ) : ℕ → ℝ :=
  sp.optspace_to_modspace (sp.expand p_opt)

/-- The RNG draws consumed by one `anneal` call, in order: the coordinate
index from `random_range(0..p.len())`, the Bernoulli outcome of
`random_bool(p_big)`, the `Open01` sample `u`, and the
`random_range(-small_step..small_step)` sample. -/
structure AnnealDraws where
  idx : ℕ
  is_big : Bool
  u : ℝ
  uniform_draw : ℝ

/-- The `lerp` helper inside `Anneal::anneal`: `lo + (hi - lo) * t`. -/
noncomputable def lerp (lo hi t : ℝ) : ℝ := lo + (hi - lo) * t

/-- The normalized temperature of `Anneal::anneal`:
`(temp / init_temp).clamp(0, 1)` when `init_temp > 0`, else `0`. -/
noncomputable def annealTau (cfg : SimulatedAnnealingConfig) (temp : ℝ) : ℝ :=
  if cfg.init_temp > 0 then rustClamp (temp / cfg.init_temp) 0 1 else 0

/-- The Bernoulli parameter handed to `random_bool` in `Anneal::anneal`:
`lerp(p_big_min, p_big_init, tau).clamp(0, 1)`. -/
noncomputable def annealPBig (cfg : SimulatedAnnealingConfig) (temp : ℝ) : ℝ :=
  rustClamp (lerp cfg.p_big_min cfg.p_big_init (annealTau cfg temp)) 0 1

/-- The body of `Anneal::anneal` (`sub_problem/argmin_impls.rs`) after the
length check and config lookup: pick one coordinate, draw a big (Cauchy) or
small (uniform) move, clamp it to `±max_abs_step`, and add it to that one
coordinate. -/
noncomputable def annealCore (cfg : SimulatedAnnealingConfig) (p : List ℝ)
    (temp : ℝ) (d : AnnealDraws) : List ℝ :=
  let tau := annealTau cfg temp
  let big_step := lerp cfg.big_step_min cfg.big_step_init tau
  let delta0 :=
    if d.is_big then big_step * Real.tan (Real.pi * (d.u - 0.5))
    else d.uniform_draw
  let delta := rustClamp delta0 (-cfg.max_abs_step) cfg.max_abs_step
  p.set d.idx (p.getD d.idx 0 + delta)

/-- `Anneal::anneal`: bail with an argmin error on a length mismatch; panic
(modelled as `none`) when no annealing config was set; otherwise run the
proposal body. -/
noncomputable def SubProblem.anneal (sp : SubProblem) (p : List ℝ) (temp : ℝ)
    (d : AnnealDraws) : Option (Except EqSysError (List ℝ)) :=
  if p.length ≠ sp.block.unknown_idxs.length then
    some (.error (.argminError "Parameter vector length for subproblem anneal function did not match number subproblem unknowns"))
  else
    match sp.sa_cfg with
    | none => none
    | some cfg => some (.ok (annealCore cfg p temp d))

/-- The external argmin solver runs, as oracles: each returns the best
sub-problem opt-space parameter vector found by the corresponding `Executor`
run, or the error the run surfaced.  Every theorem about the orchestration is
stated for an arbitrary oracle. -/
structure SolverOracles where
  gn_run : SubProblem → Except EqSysError (List ℝ)
  sa_run : SubProblem → Except EqSysError (List ℝ)
  lbfgs_run : SubProblem → Except EqSysError (List ℝ)

/-- The sub-problem built by `solve_sub_problem_gauss_newton`
(`equation_system/mod.rs`): unscaled-L2 transform over all equations, no-op
(vector) aggregator sized to the block, parameter scaling on. -/
def mkGaussNewtonSubprob (num_eqs : ℕ) (block : SolutionBlock)
    (initial_unknowns : ℕ → ℝ) : SubProblem :=
  SubProblem.new block initial_unknowns (.unscaledL2 num_eqs)
    (ResidAggTag.new_subprob block) true

/-- `solve_sub_problem_gauss_newton`: build the Gauss-Newton sub-problem, run
the solver, and reconstruct the full parameter vector from the best
sub-problem opt-space vector. -/
noncomputable def solve_sub_problem_gauss_newton (o : SolverOracles) (num_eqs : ℕ)
    (block : SolutionBlock) (initial_unknowns : ℕ → ℝ) :
    Except EqSysError (ℕ → ℝ) :=
  let subprob := mkGaussNewtonSubprob num_eqs block initial_unknowns
  (o.gn_run subprob).map subprob.params_with_subprob_optimizer_result

/-- The sub-problem built by `solve_sub_problem_simulated_annealing`:
unscaled-L2 transform, sum aggregator, scaling on, default annealing config. -/
noncomputable def mkSimulatedAnnealingSubprob (num_eqs : ℕ) (block : SolutionBlock)
    (initial_unknowns : ℕ → ℝ) : SubProblem :=
  (SubProblem.new block initial_unknowns (.unscaledL2 num_eqs) .sum true).with_sa_config
    SimulatedAnnealingConfig.default

/-- `solve_sub_problem_simulated_annealing`. -/
noncomputable def solve_sub_problem_simulated_annealing (o : SolverOracles)
    (num_eqs : ℕ) (block : SolutionBlock) (initial_unknowns : ℕ → ℝ) :
    Except EqSysError (ℕ → ℝ) :=
  let subprob := mkSimulatedAnnealingSubprob num_eqs block initial_unknowns
  (o.sa_run subprob).map subprob.params_with_subprob_optimizer_result

/-- The sub-problem built by `solve_sub_problem_lbfgs`: unscaled-L2
transform, sum aggregator, scaling on. -/
def mkLbfgsSubprob (num_eqs : ℕ) (block : SolutionBlock)
    (initial_unknowns : ℕ → ℝ) : SubProblem :=
  SubProblem.new block initial_unknowns (.unscaledL2 num_eqs) .sum true

/-- `solve_sub_problem_lbfgs`. -/
noncomputable def solve_sub_problem_lbfgs (o : SolverOracles) (num_eqs : ℕ)
    (block : SolutionBlock) (initial_unknowns : ℕ → ℝ) :
    Except EqSysError (ℕ → ℝ) :=
  let subprob := mkLbfgsSubprob num_eqs block initial_unknowns
  (o.lbfgs_run subprob).map subprob.params_with_subprob_optimizer_result

/-- The possible outcomes of `solve_system`: a solution, a surfaced
`EqSysError`, or the `panic!` the code raises when Gauss-Newton refinement
after simulated annealing fails. -/
inductive SolveOutcome where
  | ok (u : ℕ → ℝ)
  | err (e : EqSysError)
  | panicked

/-- The per-block loop of `solve_system` (`equation_system/mod.rs`): for each
block in plan order, try Gauss-Newton from the current unknowns; on success
adopt its result and continue; on failure run simulated annealing, surfacing
its error if it also fails; otherwise refine the annealing result with
Gauss-Newton, panicking if the refinement fails. -/
noncomputable def solveBlocks (o : SolverOracles) (num_eqs : ℕ) :
    List SolutionBlock → (ℕ → ℝ) → SolveOutcome
  | [], current_unknowns => .ok current_unknowns
  | block :: rest, current_unknowns =>
    match solve_sub_problem_gauss_newton o num_eqs block current_unknowns with
    | .ok best_params => solveBlocks o num_eqs rest best_params
    | .error _ =>
      match solve_sub_problem_simulated_annealing o num_eqs block current_unknowns with
      | .error e => .err e
      | .ok sa_soln =>
        match solve_sub_problem_gauss_newton o num_eqs block sa_soln with
        | .ok best_params => solveBlocks o num_eqs rest best_params
        | .error _ => .panicked

/-- `solve_system`: run the per-block loop over the plan, then a final L-BFGS
pass over the full problem (`SolutionBlock::new_fullprob` over all
equations). -/
noncomputable def solve_system (o : SolverOracles) (num_eqs : ℕ)
    (blocks : List SolutionBlock) (initial_unknowns : ℕ → ℝ) : SolveOutcome :=
  match solveBlocks o num_eqs blocks initial_unknowns with
  | .ok current_unknowns =>
    match solve_sub_problem_lbfgs o num_eqs (SolutionBlock.new_fullprob num_eqs)
        current_unknowns with
    | .ok u => .ok u
    | .error e => .err e
  | outcome => outcome

/-- The residual bundle (`residuals/residuals.rs`): the `f64` flavor, the
dual-number flavor, and the function names.  The function values are opaque
(function pointers in the source), so the element types are parameters. -/
structure ResidualFns (α β : Type) where
  f64 : List α
  adfn_1 : List β
  fn_names : List String

/-- The file-level `filter_res_fns_to_block` helper of
`residuals/residuals.rs`: keep the functions whose enumeration index occurs in
the block's `equation_idxs` — in original enumeration order. -/
def filterResFnsList {γ : Type} (fns : List γ) (block : SolutionBlock) : List γ :=
  fns.enum.filterMap
    (fun p => if p.1 ∈ block.equation_idxs then some p.2 else none)

/-- `ResidualFns::filter_res_fns_to_block`: both function flavors are filtered
by enumeration-index membership (original order), while the names are mapped
over `equation_idxs` (block order). -/
def ResidualFns.filter_res_fns_to_block {α β : Type} (r : ResidualFns α β)
    (block : SolutionBlock) : ResidualFns α β :=
  { f64 := filterResFnsList r.f64 block
  , adfn_1 := filterResFnsList r.adfn_1 block
  , fn_names := block.equation_idxs.map (fun i => r.fn_names.getD i "") }

/-- Index-based filtering with an explicit running index (proof-side
reformulation of `filterResFnsList`). -/
def filterIdxFrom {γ : Type} (idxs : List ℕ) : ℕ → List γ → List γ
  | _, [] => []
  | k, x :: xs =>
    if k ∈ idxs then x :: filterIdxFrom idxs (k + 1) xs
    else filterIdxFrom idxs (k + 1) xs

/-- A structurally singular probe Jacobian: both equations depend only on the
first unknown (`F = (x₀ - 3, 2 x₀)`, say), so the maximum matching has size
1 < 2. -/
noncomputable def JsingEx : List (List (Option ℝ)) :=
  [[some 1, some 0], [some 2, some 0]]

/-- A structurally regular diagonal probe Jacobian. -/
noncomputable def JdiagEx : List (List (Option ℝ)) :=
  [[some 1, some 0], [some 0, some 1]]

/-- A non-square (1×2) probe Jacobian. -/
noncomputable def JrectEx : List (List (Option ℝ)) := [[some 1, some 0]]

/-- A singleton solution block used to instantiate theorems. -/
def b0Ex : SolutionBlock := ⟨0, [0], [0]⟩

/-- A solver oracle whose every run returns the best vector `[1]`. -/
def oracleOkEx : SolverOracles :=
  ⟨fun _ => .ok [1], fun _ => .ok [1], fun _ => .ok [1]⟩

/-- The unknowns produced by a Gauss-Newton run of `oracleOkEx` on `b0Ex`. -/
noncomputable def u1Ex : ℕ → ℝ :=
  (mkGaussNewtonSubprob 1 b0Ex fun _ => 1).params_with_subprob_optimizer_result [1]

/-- Concrete annealing draws used to instantiate theorems. -/
noncomputable def d0Ex : AnnealDraws := ⟨0, false, 1 / 2, 1 / 20⟩

/-- A concrete annealing sub-problem with the default config. -/
noncomputable def spAnnealEx : SubProblem :=
  (SubProblem.new b0Ex (fun _ => 1) (.unscaledL2 1) .sum true).with_sa_config
    SimulatedAnnealingConfig.default

/-- A two-residual bundle whose functions are tagged by their original index
(the actual function pointers are opaque, so the tag stands for the
mathematical residual). -/
def bundleEx : ResidualFns ℕ ℕ := ⟨[0, 1], [0, 1], ["r0", "r1"]⟩

/-- A block listing its equations in decreasing order. -/
def blockRevEx : SolutionBlock := ⟨0, [1, 0], [1, 0]⟩

/-- A block listing its equations in increasing order. -/
def blockSortedEx : SolutionBlock := ⟨0, [0, 1], [0, 1]⟩

section ScalingLemmas

lemma abs_rustSignum (x : ℝ) : |rustSignum x| = 1 := by
  unfold rustSignum
  split <;> simp

lemma rustSignum_of_pos {x : ℝ} (h : 0 < x) : rustSignum x = 1 := by
  unfold rustSignum
  rw [if_neg (not_lt.mpr h.le)]

lemma rustSignum_of_neg {x : ℝ} (h : x < 0) : rustSignum x = -1 := by
  unfold rustSignum
  rw [if_pos h]

lemma priorLb_lt_abs {prior : ℝ} (h : prior ≠ 0) : priorLb prior < |prior| := by
  have ha : 0 < |prior| := abs_pos.mpr h
  unfold priorLb
  nlinarith

lemma scaled_log_link_inv_pos {x prior lb : ℝ} (hlb : 0 ≤ lb) (h : lb < prior) :
    0 < scaled_log_link_inv x prior lb := by
  unfold scaled_log_link_inv
  have he : 0 < Real.exp x := Real.exp_pos x
  nlinarith

/-- One-coordinate round trip for the link functions, in exact real
arithmetic: for a non-zero prior, `model_to_opt (opt_to_model x) = x`. -/
lemma scaler_round_trip_coord (prior x : ℝ) (h : prior ≠ 0) :
    scaled_log_link
      |scaled_log_link_inv x |prior| (priorLb prior) * rustSignum prior|
      |prior| (priorLb prior) = x := by
  have hlb : 0 ≤ priorLb prior := by
    unfold priorLb
    positivity
  have hlt : priorLb prior < |prior| := priorLb_lt_abs h
  have hpos : 0 < scaled_log_link_inv x |prior| (priorLb prior) :=
    scaled_log_link_inv_pos hlb hlt
  rw [abs_mul, abs_rustSignum, mul_one, abs_of_pos hpos]
  unfold scaled_log_link scaled_log_link_inv
  have hc : |prior| - priorLb prior ≠ 0 := sub_ne_zero.mpr (ne_of_gt hlt)
  rw [add_sub_cancel_right, mul_div_assoc, div_self hc, mul_one, Real.log_exp]

lemma abs_mul_rustSignum (p : ℝ) : |p| * rustSignum p = p := by
  unfold rustSignum
  split
  · next h => rw [abs_of_neg h]; ring
  · next h => rw [abs_of_nonneg (not_lt.mp h)]; ring

/-- The opposite-direction one-coordinate round trip, evaluated at the prior
itself: `opt_to_model (model_to_opt priors) = priors` at every non-zero
coordinate.  This is what freezes the non-block coordinates across a block
solve. -/
lemma opt_model_roundtrip_at_prior (priors : ℕ → ℝ) (j : ℕ) (h : priors j ≠ 0) :
    optToModel priors (modelToOpt priors priors) j = priors j := by
  have hlt : priorLb (priors j) < |priors j| := priorLb_lt_abs h
  have hc : |priors j| - priorLb (priors j) ≠ 0 := sub_ne_zero.mpr (ne_of_gt hlt)
  unfold optToModel modelToOpt scaled_log_link scaled_log_link_inv
  rw [div_self hc, Real.log_one, Real.exp_zero, one_mul, sub_add_cancel,
    abs_mul_rustSignum]

end ScalingLemmas

section ListLemmas

lemma enumFrom_foldl_update_not_mem (inputs : List ℝ) (j : ℕ)
    (idxs : List ℕ) (hj : j ∉ idxs) :
    ∀ (k : ℕ) (g : ℕ → ℝ),
      (List.foldl (fun acc p => Function.update acc p.2 (inputs.getD p.1 0)) g
        (idxs.enumFrom k)) j = g j := by
  induction idxs with
  | nil => intro k g; rfl
  | cons x xs ih =>
    intro k g
    have hjx : j ≠ x := fun hh => hj (hh ▸ List.mem_cons_self x xs)
    have hjxs : j ∉ xs := fun hh => hj (List.mem_cons_of_mem x hh)
    simp only [List.enumFrom, List.foldl_cons]
    rw [ih hjxs (k + 1)]
    exact Function.update_noteq hjx _ g

lemma enumFrom_foldl_update_at_get (inputs : List ℝ) (idxs : List ℕ)
    (hnd : idxs.Nodup) :
    ∀ (i : ℕ) (hi : i < idxs.length) (k : ℕ) (g : ℕ → ℝ),
      (List.foldl (fun acc p => Function.update acc p.2 (inputs.getD p.1 0)) g
        (idxs.enumFrom k)) (idxs.get ⟨i, hi⟩) = inputs.getD (k + i) 0 := by
  induction idxs with
  | nil => intro i hi; exact absurd hi (Nat.not_lt_zero i)
  | cons x xs ih =>
    intro i hi k g
    have hx : x ∉ xs := (List.nodup_cons.mp hnd).1
    have hndt : xs.Nodup := (List.nodup_cons.mp hnd).2
    match i with
    | 0 =>
      simp only [List.enumFrom, List.foldl_cons, List.get]
      rw [enumFrom_foldl_update_not_mem inputs x xs hx (k + 1)]
      simp [Function.update_same]
    | Nat.succ i0 =>
      simp only [List.enumFrom, List.foldl_cons, List.get]
      have := ih hndt i0 (Nat.lt_of_succ_lt_succ hi) (k + 1)
        (Function.update g x (inputs.getD k 0))
      rw [this]
      congr 1
      omega

lemma enum_filterMap_eq_filterIdxFrom {γ : Type} (idxs : List ℕ) :
    ∀ (l : List γ) (k : ℕ),
      (l.enumFrom k).filterMap
        (fun p => if p.1 ∈ idxs then some p.2 else none)
      = filterIdxFrom idxs k l := by
  intro l
  induction l with
  | nil => intro k; rfl
  | cons x xs ih =>
    intro k
    simp only [List.enumFrom, List.filterMap_cons, filterIdxFrom]
    by_cases h : k ∈ idxs
    · simp only [if_pos h, ih (k + 1)]
    · simp only [if_neg h, ih (k + 1)]

lemma filterIdxFrom_cons_of_lt {γ : Type} (j : ℕ) (t : List ℕ) :
    ∀ (l : List γ) (k : ℕ), j < k →
      filterIdxFrom (j :: t) k l = filterIdxFrom t k l := by
  intro l
  induction l with
  | nil => intro k _; rfl
  | cons x xs ih =>
    intro k hk
    have hkj : k ≠ j := (Nat.ne_of_gt hk)
    simp only [filterIdxFrom, List.mem_cons]
    by_cases h : k ∈ t
    · rw [if_pos (Or.inr h), if_pos h, ih (k + 1) (Nat.lt_succ_of_lt hk)]
    · rw [if_neg (by tauto), if_neg h, ih (k + 1) (Nat.lt_succ_of_lt hk)]

lemma filterIdxFrom_nil {γ : Type} :
    ∀ (l : List γ) (k : ℕ), filterIdxFrom ([] : List ℕ) k l = [] := by
  intro l
  induction l with
  | nil => intro k; rfl
  | cons x xs ih =>
    intro k
    simp only [filterIdxFrom, List.not_mem_nil, if_false]
    exact ih (k + 1)

lemma filterIdxFrom_eq_map {γ : Type} (d : γ) :
    ∀ (l : List γ) (k : ℕ) (idxs : List ℕ), idxs.Sorted (· < ·) →
      (∀ i ∈ idxs, k ≤ i ∧ i - k < l.length) →
      filterIdxFrom idxs k l = idxs.map (fun i => l.getD (i - k) d) := by
  intro l
  induction l with
  | nil =>
    intro k idxs _ hb
    have : idxs = [] := by
      cases idxs with
      | nil => rfl
      | cons i t => exact absurd (hb i (List.mem_cons_self i t)).2 (by simp)
    subst this
    rfl
  | cons x xs ih =>
    intro k idxs hsort hb
    cases idxs with
    | nil => rw [filterIdxFrom_nil]; rfl
    | cons i0 t =>
      have hhead : ∀ j ∈ t, i0 < j := fun j hj => (List.sorted_cons.mp hsort).1 j hj
      have hsortt : t.Sorted (· < ·) := (List.sorted_cons.mp hsort).2
      by_cases hk : k ∈ i0 :: t
      · -- the head of idxs must be k itself
        have hi0 : i0 = k := by
          rcases List.mem_cons.mp hk with h | h
          · exact h.symm
          · exact absurd (hb i0 (List.mem_cons_self i0 t)).1
              (by have := hhead k h; omega)
        subst hi0
        simp only [filterIdxFrom, if_pos hk]
        rw [filterIdxFrom_cons_of_lt i0 t xs (i0 + 1) (Nat.lt_succ_self i0)]
        rw [ih (i0 + 1) t hsortt ?_]
        · simp only [List.map_cons, Nat.sub_self, List.getD_cons_zero]
          congr 1
          refine List.map_congr_left (fun j hj => ?_)
          have hji : i0 < j := hhead j hj
          have : j - i0 = (j - (i0 + 1)) + 1 := by omega
          rw [this, List.getD_cons_succ]
        · intro i hi
          have h1 := hhead i hi
          have h2 := (hb i (List.mem_cons_of_mem i0 hi)).2
          simp only [List.length_cons] at h2
          exact ⟨by omega, by omega⟩
      · simp only [filterIdxFrom, if_neg hk]
        rw [ih (k + 1) (i0 :: t) hsort ?_]
        · refine List.map_congr_left (fun j hj => ?_)
          have h1 := (hb j hj).1
          have hjk : j ≠ k := fun hh => hk (hh ▸ hj)
          have : j - k = (j - (k + 1)) + 1 := by omega
          rw [this, List.getD_cons_succ]
        · intro i hi
          have h1 := (hb i hi).1
          have h2 := (hb i hi).2
          have hik : i ≠ k := fun hh => hk (hh ▸ hi)
          simp only [List.length_cons] at h2
          exact ⟨by omega, by omega⟩

end ListLemmas

section ClampLemmas

lemma abs_rustClamp_le (x M : ℝ) (h : 0 ≤ M) : |rustClamp x (-M) M| ≤ M := by
  unfold rustClamp
  rw [abs_le]
  refine ⟨le_min (le_max_right x (-M)) (by linarith), min_le_right _ _⟩

lemma rustClamp_of_mem (x : ℝ) (h0 : 0 ≤ x) (h1 : x ≤ 1) : rustClamp x 0 1 = x := by
  unfold rustClamp
  rw [max_eq_left h0, min_eq_left h1]

end ClampLemmas

/-- C3: for every prior vector with no zero component and every opt-space
vector `x` with `|x i| ≤ 100` in each coordinate, applying the opt-to-model
link and then the model-to-opt link returns `x` (in the real-number model the
round trip is exact, so in particular each coordinate is reproduced to within
`10⁻⁹` relative error). -/
theorem scaler_round_trip (priors x : ℕ → ℝ) (hp : ∀ i, priors i ≠ 0)
    (hx : ∀ i, |x i| ≤ 100) (i : ℕ) :
    (default_link_fns_builder priors).2 ((default_link_fns_builder priors).1 x) i
      = x i ∧
    |(default_link_fns_builder priors).2 ((default_link_fns_builder priors).1 x) i
      - x i| ≤ 1 / 10 ^ 9 * |x i| := by
  have h : (default_link_fns_builder priors).2
      ((default_link_fns_builder priors).1 x) i = x i := by
    simp only [default_link_fns_builder, modelToOpt, optToModel]
    exact scaler_round_trip_coord (priors i) (x i) (hp i)
  refine ⟨h, ?_⟩
  rw [h, sub_self, abs_zero]
  positivity

/-- Witness for C3 at priors `= 1`, `x = 0`, coordinate `0`. -/
theorem scaler_round_trip_witness :
    (default_link_fns_builder fun _ => (1 : ℝ)).2
        ((default_link_fns_builder fun _ => (1 : ℝ)).1 fun _ => 0) 0 = 0 ∧
    |(default_link_fns_builder fun _ =>(1 : ℝ)).2
        ((default_link_fns_builder fun _ => (1 : ℝ)).1 fun _ => 0) 0 - 0|
      ≤ 1 / 10 ^ 9 * |(0 : ℝ)| :=
  scaler_round_trip (fun _ => 1) (fun _ => 0) (fun _ => one_ne_zero)
    (fun _ => by norm_num) 0

/-- C6 counterexample: with the zero prior, scaler construction does not fail
— `default_link_fns_builder` is total, `EqSysError` has no `ZeroPrior`
variant, and the constructed opt-to-model link simply evaluates (to `0` at
every input on a zero-prior coordinate) instead of surfacing an error. -/
theorem zero_prior_scaler_constructed :
    (default_link_fns_builder fun _ => (0 : ℝ)).1 (fun _ => 5) 0 = 0 := by
  norm_num [default_link_fns_builder, optToModel, scaled_log_link_inv, priorLb,
    rustSignum]

/-- C6 amended: scaler construction never fails.  `default_link_fns_builder`
returns the two link closures for every priors vector, zero components
included; on a zero-prior coordinate the opt-to-model link collapses to `0`
(in `f64`, `exp x * 0 + 0` multiplied by `signum(0.0) = 1.0`) rather than
producing a `ZeroPrior` error, which does not exist in `EqSysError`. -/
theorem zero_prior_scaler_total (priors x : ℕ → ℝ) (i : ℕ) (h : priors i = 0) :
    (default_link_fns_builder priors).1 x i = 0 := by
  simp [default_link_fns_builder, optToModel, scaled_log_link_inv, priorLb, h]

/-- Witness for the amended C6 at priors `= 0`, input `7`, coordinate `0`. -/
theorem zero_prior_scaler_total_witness :
    (default_link_fns_builder fun _ => (0 : ℝ)).1 (fun _ => 7) 0 = 0 :=
  zero_prior_scaler_total (fun _ => 0) (fun _ => 7) 0 rfl

/-- C5: binarization maps every entry of the probe Jacobian to exactly one of
`NaN` (non-finite entry, preserved rather than dropped), `1` (finite non-zero)
and `0` (zero), and it preserves the matrix shape. -/
theorem to_binary_matrix_characterization (m : List (List (Option ℝ)))
    (i j : ℕ) (hi : i < m.length) (hj : j < (m.getD i []).length) :
    (to_binary_matrix m).length = m.length ∧
    ((to_binary_matrix m).getD i []).length = (m.getD i []).length ∧
    ((m.getD i []).getD j none = none →
      ((to_binary_matrix m).getD i []).getD j Bin.zero = Bin.nan) ∧
    (∀ v : ℝ, (m.getD i []).getD j none = some v → v ≠ 0 →
      ((to_binary_matrix m).getD i []).getD j Bin.zero = Bin.one) ∧
    (∀ v : ℝ, (m.getD i []).getD j none = some v → v = 0 →
      ((to_binary_matrix m).getD i []).getD j Bin.zero = Bin.zero) := by
  have hi2 : i < (to_binary_matrix m).length := by
    simpa [to_binary_matrix] using hi
  have hrow : (to_binary_matrix m).getD i [] = (m.getD i []).map to_binary_entry := by
    unfold to_binary_matrix
    rw [List.getD_eq_getElem _ _ (by simpa [to_binary_matrix] using hi2),
      List.getD_eq_getElem _ _ hi, List.getElem_map]
  have hcell : ((to_binary_matrix m).getD i []).getD j Bin.zero
      = to_binary_entry ((m.getD i []).getD j none) := by
    rw [hrow, List.getD_eq_getElem _ _ (by simpa using hj),
      List.getD_eq_getElem _ _ hj, List.getElem_map]
  refine ⟨by simp [to_binary_matrix], by rw [hrow]; simp, ?_, ?_, ?_⟩
  · intro h
    rw [hcell, h]
    rfl
  · intro v hv hv0
    rw [hcell, hv]
    simp [to_binary_entry, hv0]
  · intro v hv hv0
    rw [hcell, hv]
    simp [to_binary_entry, hv0]

/-- Witness for C5 at the 1×2 matrix `[[1, NaN]]`, entries `(0,0)` and
`(0,1)`. -/
theorem to_binary_matrix_characterization_witness :
    ((to_binary_matrix [[some (1 : ℝ), none]]).length
        = ([[some (1 : ℝ), none]] : List (List (Option ℝ))).length ∧
      ((to_binary_matrix [[some (1 : ℝ), none]]).getD 0 []).length
        = (([[some (1 : ℝ), none]] : List (List (Option ℝ))).getD 0 []).length ∧
      ((([[some (1 : ℝ), none]] : List (List (Option ℝ))).getD 0 []).getD 1 none = none →
        ((to_binary_matrix [[some (1 : ℝ), none]]).getD 0 []).getD 1 Bin.zero = Bin.nan) ∧
      (∀ v : ℝ, (([[some (1 : ℝ), none]] : List (List (Option ℝ))).getD 0 []).getD 1 none = some v → v ≠ 0 →
        ((to_binary_matrix [[some (1 : ℝ), none]]).getD 0 []).getD 1 Bin.zero = Bin.one) ∧
      (∀ v : ℝ, (([[some (1 : ℝ), none]] : List (List (Option ℝ))).getD 0 []).getD 1 none = some v → v = 0 →
        ((to_binary_matrix [[some (1 : ℝ), none]]).getD 0 []).getD 1 Bin.zero = Bin.zero)) :=
  to_binary_matrix_characterization [[some 1, none]] 0 1 (by norm_num)
    (by norm_num)

/-- C7: plan construction (`with_triangularization`) fails with the
dimension-mismatch error (`NumEquationsNumUnknownsMismatch`) exactly when the
probe Jacobian is not square, and the error carries both the equation count
and the unknown count.  The statement holds for an arbitrary external
decomposition function `btf`. -/
theorem with_triangularization_mismatch_iff
    (btf : List (List Bin) → LowerBtfStructure) (J : List (List (Option ℝ)))
    (e : EqSysError) :
    with_triangularization btf J = .error e ↔
      (matNrows J ≠ matNcols J ∧
        e = .numEquationsNumUnknownsMismatch (matNrows J) (matNcols J)) := by
  unfold with_triangularization
  split
  · next h =>
    simp only [Except.error.injEq]
    constructor
    · intro he
      exact ⟨h, he.symm⟩
    · rintro ⟨_, rfl⟩
      rfl
  · next h =>
    constructor
    · intro he
      exact Except.noConfusion he
    · rintro ⟨hne, _⟩
      exact absurd hne h

/-- Witness for C7 at the non-square 1×2 Jacobian `JrectEx`. -/
theorem with_triangularization_mismatch_witness :
    with_triangularization btfStub JrectEx
      = .error (.numEquationsNumUnknownsMismatch 1 2) :=
  (with_triangularization_mismatch_iff btfStub JrectEx _).mpr
    ⟨by norm_num [JrectEx, matNrows, matNcols], by norm_num [JrectEx, matNrows, matNcols]⟩

/-- C4 counterexample: at the concrete probe Jacobian `JsingEx` the maximum
bipartite matching (spec-modelled, since the decomposition crate is external)
has size 1 < 2, i.e. the system is structurally singular at the probe point —
yet `with_triangularization` returns a plan (`isOk`).  The source performs no
matching-size check and `EqSysError` has no `StructurallySingular` variant, so
plan construction cannot fail in the way the claim states; the instantiating
structure function is irrelevant (see the amended theorem, which holds for
every `btf`). -/
theorem structurally_singular_still_returns_plan :
    maxMatchingSize (to_binary_matrix JsingEx) < matNrows JsingEx ∧
    (with_triangularization btfStub JsingEx).isOk = true := by
  have hb : to_binary_matrix JsingEx = [[Bin.one, Bin.zero], [Bin.one, Bin.zero]] := by
    norm_num [JsingEx, to_binary_matrix, to_binary_entry]
  have hr : matNrows JsingEx = 2 := by norm_num [JsingEx, matNrows]
  constructor
  · rw [hb, hr]
    decide
  · unfold with_triangularization
    rw [if_neg (by norm_num [JsingEx, matNrows, matNcols])]
    rfl

/-- C4 amended: plan construction performs no structural-singularity check.
For every square probe Jacobian — whatever the matching size of its binarized
pattern, and whatever the external decomposition returns — plan construction
succeeds; the only plan-time failure is the dimension mismatch for a
non-square Jacobian, and `EqSysError` has no `StructurallySingular` variant to
report unmatched rows or columns with. -/
theorem with_triangularization_square_always_ok
    (btf : List (List Bin) → LowerBtfStructure) (J : List (List (Option ℝ)))
    (hsq : matNrows J = matNcols J) :
    (with_triangularization btf J).isOk = true := by
  unfold with_triangularization
  rw [if_neg (fun hc => hc hsq)]
  rfl

/-- Witness for the amended C4 at the square diagonal Jacobian `JdiagEx`. -/
theorem with_triangularization_square_always_ok_witness :
    (with_triangularization btfStub JdiagEx).isOk = true :=
  with_triangularization_square_always_ok btfStub JdiagEx
    (by norm_num [JdiagEx, matNrows, matNcols])

/-- C10: a `SubProblem` constructed with `use_scaling = true` takes its scaler
priors from the very initial-unknowns vector passed at construction, so at
every nonzero coordinate the opt-space image of the initial vector is
`ln ((|x| - 0.01 |x|) / (|x| - 0.01 |x|)) = 0`, and
`subprob_initial_params_optspace` is the all-zero vector of the block's
length: each block solve starts at the origin of opt space (with lower bounds
`0.01 * |current iterate|`, not of a fixed engineering prior). -/
theorem subprob_initial_optspace_at_origin (block : SolutionBlock)
    (init : ℕ → ℝ) (t : ResidTransTag) (a : ResidAggTag)
    (h : ∀ j ∈ block.unknown_idxs, init j ≠ 0) :
    (SubProblem.new block init t a true).subprob_initial_params_optspace
      = List.replicate block.unknown_idxs.length 0 := by
  have hfull : (SubProblem.new block init t a true).fullprob_initial_params_optspace
      = modelToOpt init init := by
    simp [SubProblem.new, SubProblem.fullprob_initial_params_optspace,
      SubProblem.modspace_to_optspace]
  unfold SubProblem.subprob_initial_params_optspace
  rw [hfull]
  have hlen : (block.unknown_idxs.map (fun idx => modelToOpt init init idx)).length
      = block.unknown_idxs.length := List.length_map _ _
  rw [← hlen]
  refine List.eq_replicate_of_mem (fun b hb => ?_)
  obtain ⟨idx, hidx, rfl⟩ := List.mem_map.mp hb
  have hc : |init idx| - priorLb (init idx) ≠ 0 :=
    sub_ne_zero.mpr (ne_of_gt (priorLb_lt_abs (h idx hidx)))
  unfold modelToOpt scaled_log_link
  rw [div_self hc, Real.log_one]

/-- Witness for C10 at the singleton block `b0Ex` with initial unknowns
`= 2`. -/
theorem subprob_initial_optspace_at_origin_witness :
    (SubProblem.new b0Ex (fun _ => 2) (.identity 1) .sum true).subprob_initial_params_optspace
      = List.replicate b0Ex.unknown_idxs.length 0 :=
  subprob_initial_optspace_at_origin b0Ex (fun _ => 2) (.identity 1) .sum
    (fun j _ => two_ne_zero)

/-- C2: solving a block writes back only the block's coordinates.  The
expansion from a sub-problem opt vector to the full opt vector overwrites
exactly the `unknown_idxs` coordinates (conjuncts 1 and 3) and leaves every
other coordinate at its frozen initial opt-space value, so after mapping back
to model space every coordinate outside the block is exactly its value before
the solve (conjunct 2; nonzero because the coordinate doubles as its own
scaler prior). -/
theorem subprob_expand_frame (block : SolutionBlock) (init : ℕ → ℝ)
    (t : ResidTransTag) (a : ResidAggTag) (inputs : List ℝ) (j : ℕ)
    (hj : j ∉ block.unknown_idxs) :
    (SubProblem.new block init t a true).expand inputs j
      = (SubProblem.new block init t a true).fullprob_initial_params_optspace j ∧
    (init j ≠ 0 →
      (SubProblem.new block init t a true).params_with_subprob_optimizer_result
        inputs j = init j) ∧
    (block.unknown_idxs.Nodup → ∀ i, ∀ hi : i < block.unknown_idxs.length,
      (SubProblem.new block init t a true).expand inputs
        (block.unknown_idxs.get ⟨i, hi⟩) = inputs.getD i 0) := by
  have hfrozen : (SubProblem.new block init t a true).expand inputs j
      = (SubProblem.new block init t a true).fullprob_initial_params_optspace j := by
    unfold SubProblem.expand
    exact enumFrom_foldl_update_not_mem inputs j block.unknown_idxs hj 0 _
  have hfull : (SubProblem.new block init t a true).fullprob_initial_params_optspace
      = modelToOpt init init := by
    simp [SubProblem.new, SubProblem.fullprob_initial_params_optspace,
      SubProblem.modspace_to_optspace]
  refine ⟨hfrozen, fun h0 => ?_, fun hnd i hi => ?_⟩
  · have h1 : (SubProblem.new block init t a true).expand inputs j
        = modelToOpt init init j := by rw [hfrozen, hfull]
    unfold SubProblem.params_with_subprob_optimizer_result
      SubProblem.optspace_to_modspace
    simp only [SubProblem.new, if_true]
    calc optToModel init ((SubProblem.new block init t a true).expand inputs) j
        = optToModel init (modelToOpt init init) j := by
          unfold optToModel
          rw [h1]
      _ = init j := opt_model_roundtrip_at_prior init j h0
  · unfold SubProblem.expand
    simpa using
      enumFrom_foldl_update_at_get inputs block.unknown_idxs hnd i hi 0 _

/-- Witness for C2 at the singleton block `b0Ex`, initial unknowns `= 3`,
sub-problem vector `[5]`, non-block coordinate `1`. -/
theorem subprob_expand_frame_witness :
    ((SubProblem.new b0Ex (fun _ => 3) (.identity 1) .sum true).expand [5] 1
      = (SubProblem.new b0Ex (fun _ => 3) (.identity 1) .sum true).fullprob_initial_params_optspace 1 ∧
    ((fun _ : ℕ => (3 : ℝ)) 1 ≠ 0 →
      (SubProblem.new b0Ex (fun _ => 3) (.identity 1) .sum true).params_with_subprob_optimizer_result
        [5] 1 = (fun _ : ℕ => (3 : ℝ)) 1) ∧
    (b0Ex.unknown_idxs.Nodup → ∀ i, ∀ hi : i < b0Ex.unknown_idxs.length,
      (SubProblem.new b0Ex (fun _ => 3) (.identity 1) .sum true).expand [5]
        (b0Ex.unknown_idxs.get ⟨i, hi⟩) = ([(5 : ℝ)]).getD i 0)) :=
  subprob_expand_frame b0Ex (fun _ => 3) (.identity 1) .sum [5] 1 (by decide)

/-- C8: one `anneal` call changes exactly one coordinate.  For every parameter
vector of the block's length, every temperature and every RNG draw, the
proposal equals `p` except at the drawn index, the applied change is the
clamped delta with `|delta| ≤ max_abs_step`, and the Bernoulli parameter of the
big-move draw is `lerp (p_big_min) (p_big_init) tau` for
`tau = clamp (temp / T₀) 0 1` (the extra code-side clamp of the probability to
`[0, 1]` is the identity whenever that interpolant already lies in `[0, 1]`,
as it does for the default configuration). -/
theorem anneal_single_coordinate (sp : SubProblem) (p : List ℝ) (temp : ℝ)
    (d : AnnealDraws) (cfg : SimulatedAnnealingConfig)
    (hcfg : sp.sa_cfg = some cfg)
    (hlen : p.length = sp.block.unknown_idxs.length)
    (hidx : d.idx < p.length) (hmax : 0 ≤ cfg.max_abs_step) :
    ∃ delta : ℝ,
      sp.anneal p temp d = some (.ok (p.set d.idx (p.getD d.idx 0 + delta))) ∧
      |delta| ≤ cfg.max_abs_step ∧
      (p.set d.idx (p.getD d.idx 0 + delta)).length = p.length ∧
      (∀ j, j ≠ d.idx →
        (p.set d.idx (p.getD d.idx 0 + delta)).getD j 0 = p.getD j 0) ∧
      (p.set d.idx (p.getD d.idx 0 + delta)).getD d.idx 0
        = p.getD d.idx 0 + delta ∧
      (0 ≤ lerp cfg.p_big_min cfg.p_big_init (annealTau cfg temp) →
        lerp cfg.p_big_min cfg.p_big_init (annealTau cfg temp) ≤ 1 →
        annealPBig cfg temp
          = lerp cfg.p_big_min cfg.p_big_init (annealTau cfg temp)) := by
  refine ⟨rustClamp
      (if d.is_big then
        lerp cfg.big_step_min cfg.big_step_init (annealTau cfg temp)
          * Real.tan (Real.pi * (d.u - 0.5))
      else d.uniform_draw) (-cfg.max_abs_step) cfg.max_abs_step,
    ?_, ?_, ?_, ?_, ?_, ?_⟩
  · unfold SubProblem.anneal
    rw [if_neg (by rw [hlen]; exact fun hc => hc rfl), hcfg]
    rfl
  · exact abs_rustClamp_le _ _ hmax
  · simp
  · intro j hj
    simp [List.getD_eq_getElem?_getD, List.getElem?_set_ne (Ne.symm hj)]
  · simp [List.getD_eq_getElem?_getD, List.getElem?_set_self, hidx]
  · intro hlo hhi
    unfold annealPBig
    exact rustClamp_of_mem _ hlo hhi

/-- Witness for C8 at the concrete annealing sub-problem `spAnnealEx`,
parameter vector `[0]`, temperature `50`, draws `d0Ex`. -/
theorem anneal_single_coordinate_witness :
    ∃ delta : ℝ,
      spAnnealEx.anneal [0] 50 d0Ex
        = some (.ok (([(0 : ℝ)]).set d0Ex.idx (([(0 : ℝ)]).getD d0Ex.idx 0 + delta))) ∧
      |delta| ≤ SimulatedAnnealingConfig.default.max_abs_step ∧
      (([(0 : ℝ)]).set d0Ex.idx (([(0 : ℝ)]).getD d0Ex.idx 0 + delta)).length
        = ([(0 : ℝ)]).length ∧
      (∀ j, j ≠ d0Ex.idx →
        (([(0 : ℝ)]).set d0Ex.idx (([(0 : ℝ)]).getD d0Ex.idx 0 + delta)).getD j 0
          = ([(0 : ℝ)]).getD j 0) ∧
      (([(0 : ℝ)]).set d0Ex.idx (([(0 : ℝ)]).getD d0Ex.idx 0 + delta)).getD d0Ex.idx 0
        = ([(0 : ℝ)]).getD d0Ex.idx 0 + delta ∧
      (0 ≤ lerp SimulatedAnnealingConfig.default.p_big_min
            SimulatedAnnealingConfig.default.p_big_init
            (annealTau SimulatedAnnealingConfig.default 50) →
        lerp SimulatedAnnealingConfig.default.p_big_min
            SimulatedAnnealingConfig.default.p_big_init
            (annealTau SimulatedAnnealingConfig.default 50) ≤ 1 →
        annealPBig SimulatedAnnealingConfig.default 50
          = lerp SimulatedAnnealingConfig.default.p_big_min
              SimulatedAnnealingConfig.default.p_big_init
              (annealTau SimulatedAnnealingConfig.default 50)) :=
  anneal_single_coordinate spAnnealEx [0] 50 d0Ex SimulatedAnnealingConfig.default
    rfl rfl Nat.zero_lt_one (Real.log_nonneg (by norm_num))

/-- C9 counterexample: filtering the bundle to a block whose `equation_idxs`
are not in increasing order breaks the alignment invariant.  The functions are
tagged by their original index.  For the block with `equation_idxs = [1, 0]`,
position 0 of the filtered bundle holds original residual 0 in both numeric
flavors (the filter keeps functions in original enumeration order), but the
position-0 name is that of original residual 1 (names are mapped in
`equation_idxs` order) — so names and functions do not refer to the same
original residual. -/
theorem filter_res_fns_misaligned :
    (bundleEx.filter_res_fns_to_block blockRevEx).f64.getD 0 99 = 0 ∧
    (bundleEx.filter_res_fns_to_block blockRevEx).adfn_1.getD 0 99 = 0 ∧
    (bundleEx.filter_res_fns_to_block blockRevEx).fn_names.getD 0 "x" = "r1" ∧
    bundleEx.f64.getD 0 99 = 0 ∧
    bundleEx.fn_names.getD 0 "x" = "r0" ∧
    bundleEx.fn_names.getD 1 "x" = "r1" ∧
    ("r1" : String) ≠ "r0" := by
  decide

/-- C9 amended: the bundle alignment invariant is preserved by
`filter_res_fns_to_block` when the block's `equation_idxs` are sorted in
strictly increasing order (and in range): then, at every position `i`, the
`f64` function, the dual-number function and the name of the filtered bundle
are all those of the original residual `equation_idxs[i]`.  For an unsorted
`equation_idxs` the functions keep their original order while the names follow
the block order, and the invariant can fail (see the counterexample). -/
theorem filter_res_fns_aligned_of_sorted {α β : Type} (r : ResidualFns α β)
    (block : SolutionBlock) (da : α) (db : β)
    (hsort : block.equation_idxs.Sorted (· < ·))
    (hba : ∀ i ∈ block.equation_idxs, i < r.f64.length)
    (hbb : ∀ i ∈ block.equation_idxs, i < r.adfn_1.length) :
    (r.filter_res_fns_to_block block).f64
      = block.equation_idxs.map (fun i => r.f64.getD i da) ∧
    (r.filter_res_fns_to_block block).adfn_1
      = block.equation_idxs.map (fun i => r.adfn_1.getD i db) ∧
    (r.filter_res_fns_to_block block).fn_names
      = block.equation_idxs.map (fun i => r.fn_names.getD i "") := by
  have key : ∀ {γ : Type} (fns : List γ) (dd : γ),
      (∀ i ∈ block.equation_idxs, i < fns.length) →
      filterResFnsList fns block
        = block.equation_idxs.map (fun i => fns.getD i dd) := by
    intro γ fns dd hb
    unfold filterResFnsList
    rw [show fns.enum = fns.enumFrom 0 from rfl,
      enum_filterMap_eq_filterIdxFrom,
      filterIdxFrom_eq_map dd fns 0 block.equation_idxs hsort
        (fun i hi => ⟨Nat.zero_le i, by rw [Nat.sub_zero]; exact hb i hi⟩)]
    refine List.map_congr_left (fun i _ => ?_)
    rw [Nat.sub_zero]
  exact ⟨key r.f64 da hba, key r.adfn_1 db hbb, rfl⟩

/-- Witness for the amended C9 at the two-residual bundle and the sorted block
`equation_idxs = [0, 1]`. -/
theorem filter_res_fns_aligned_of_sorted_witness :
    ((bundleEx.filter_res_fns_to_block blockSortedEx).f64
      = blockSortedEx.equation_idxs.map (fun i => bundleEx.f64.getD i 99) ∧
    (bundleEx.filter_res_fns_to_block blockSortedEx).adfn_1
      = blockSortedEx.equation_idxs.map (fun i => bundleEx.adfn_1.getD i 99) ∧
    (bundleEx.filter_res_fns_to_block blockSortedEx).fn_names
      = blockSortedEx.equation_idxs.map (fun i => bundleEx.fn_names.getD i "")) :=
  filter_res_fns_aligned_of_sorted bundleEx blockSortedEx 99 99
    (by decide) (by decide) (by decide)

/-- C1: `solve_system` processes the plan's blocks strictly in order.  For
each block it first runs Gauss-Newton — built with the no-op (vector)
aggregator and the unscaled-L2 transform — from the current unknowns
(conjuncts 1 and 3); on success the new current unknowns are the block
write-back of the optimizer's vector (conjunct 2) and the loop continues.  On
Gauss-Newton failure it runs simulated annealing — sum aggregator, unscaled-L2
transform, default annealing config (conjunct 4); if that also fails its error
is surfaced and the plan aborts (conjunct 5), otherwise the annealing result
is refined with Gauss-Newton and the loop continues from the refinement
(conjunct 6).  After all blocks a final L-BFGS pass runs over the full
`n`-coordinate problem and its result is returned (conjuncts 7 and 8).  The
statement holds for arbitrary solver oracles.  (When the refinement itself
fails the code panics — `solveBlocks` returns `.panicked` — a case the claim
does not speak to.) -/
theorem solve_system_waterfall (o : SolverOracles) (num_eqs : ℕ)
    (block : SolutionBlock) (rest : List SolutionBlock)
    (cur u sa_u : ℕ → ℝ) (v : List ℝ) (e : EqSysError) :
    (mkGaussNewtonSubprob num_eqs block cur
      = SubProblem.new block cur (.unscaledL2 num_eqs)
          (.noOpGaussNewton block.equation_idxs.length) true) ∧
    (o.gn_run (mkGaussNewtonSubprob num_eqs block cur) = .ok v →
      solve_sub_problem_gauss_newton o num_eqs block cur
        = .ok ((mkGaussNewtonSubprob num_eqs block cur).params_with_subprob_optimizer_result v)) ∧
    (solve_sub_problem_gauss_newton o num_eqs block cur = .ok u →
      solveBlocks o num_eqs (block :: rest) cur = solveBlocks o num_eqs rest u) ∧
    (mkSimulatedAnnealingSubprob num_eqs block cur
      = (SubProblem.new block cur (.unscaledL2 num_eqs) .sum true).with_sa_config
          SimulatedAnnealingConfig.default) ∧
    ((∃ e0, solve_sub_problem_gauss_newton o num_eqs block cur = .error e0) →
      solve_sub_problem_simulated_annealing o num_eqs block cur = .error e →
      solveBlocks o num_eqs (block :: rest) cur = .err e) ∧
    ((∃ e0, solve_sub_problem_gauss_newton o num_eqs block cur = .error e0) →
      solve_sub_problem_simulated_annealing o num_eqs block cur = .ok sa_u →
      solve_sub_problem_gauss_newton o num_eqs block sa_u = .ok u →
      solveBlocks o num_eqs (block :: rest) cur = solveBlocks o num_eqs rest u) ∧
    (solveBlocks o num_eqs rest cur = .ok u →
      solve_sub_problem_lbfgs o num_eqs (SolutionBlock.new_fullprob num_eqs) u
        = .ok sa_u →
      solve_system o num_eqs rest cur = .ok sa_u) ∧
    ((SolutionBlock.new_fullprob num_eqs).unknown_idxs = List.range num_eqs ∧
      (SolutionBlock.new_fullprob num_eqs).equation_idxs = List.range num_eqs) := by
  refine ⟨rfl, ?_, ?_, rfl, ?_, ?_, ?_, rfl, rfl⟩
  · intro h
    simp only [solve_sub_problem_gauss_newton, h, Except.map]
  · intro h
    simp only [solveBlocks, h]
  · rintro ⟨e0, h0⟩ h1
    simp only [solveBlocks, h0, h1]
  · rintro ⟨e0, h0⟩ h1 h2
    simp only [solveBlocks, h0, h1, h2]
  · intro h1 h2
    simp only [solve_system, h1, h2]

/-- Witness for C1: with the constant-success oracle, solving the
one-block plan `[b0Ex]` continues past the block with the Gauss-Newton
write-back `u1Ex`. -/
theorem solve_system_waterfall_witness :
    solveBlocks oracleOkEx 1 [b0Ex] (fun _ => 1)
      = solveBlocks oracleOkEx 1 [] u1Ex :=
  (solve_system_waterfall oracleOkEx 1 b0Ex [] (fun _ => 1) u1Ex u1Ex [1]
      .noBestPsoIndividual).2.2.1 rfl

end SystemSolver
